import Mathlib

/-!
Verification of the trailing-stop / crossover engine of this repository.

The Python sources operate on pandas Series of IEEE doubles.  We embed a
double as `FloatVal`: either a finite rational, NaN, or a signed infinity,
with comparison and arithmetic following IEEE semantics (any comparison
with NaN is false, NaN propagates through arithmetic).  Series are embedded
as `List FloatVal`; `shift(1)` is embedded by consing a NaN in front (pandas
inserts NaN at position 0), and elementwise operations by `List.zipWith`.

`BuySellIndicatorStrategy` (buy_sell_indicator_strategy.py) and
`UtBotStrategy` (ut_bot_strategy.py) are embedded in namespaces `BuySell`
and `UtBot` respectively.
-/

attribute [local semireducible] Rat.add Rat.mul Rat.sub Rat.inv

inductive FloatVal where
  | fin (q : ℚ)
  | nan
  | posInf
  | negInf
deriving DecidableEq, Repr

namespace FloatVal

/-- Embeds `np.isnan` / `x != x`. -/
def isNan : FloatVal → Bool
  | nan => true
  | _ => false

/-- Embeds `np.isfinite`: false for NaN and both infinities. -/
def isFinite : FloatVal → Bool
  | fin _ => true
  | _ => false

/-- IEEE strict less-than: any comparison involving NaN is false. -/
def lt : FloatVal → FloatVal → Bool
  | fin a, fin b => decide (a < b)
  | fin _, posInf => true
  | negInf, fin _ => true
  | negInf, posInf => true
  | _, _ => false

/-- IEEE less-or-equal: any comparison involving NaN is false. -/
def le : FloatVal → FloatVal → Bool
  | fin a, fin b => decide (a ≤ b)
  | fin _, posInf => true
  | negInf, fin _ => true
  | negInf, negInf => true
  | negInf, posInf => true
  | posInf, posInf => true
  | _, _ => false

/-- IEEE equality test (`==`): NaN is equal to nothing, itself included. -/
def beq : FloatVal → FloatVal → Bool
  | fin a, fin b => decide (a = b)
  | posInf, posInf => true
  | negInf, negInf => true
  | _, _ => false

def neg : FloatVal → FloatVal
  | fin a => fin (-a)
  | nan => nan
  | posInf => negInf
  | negInf => posInf

/-- Exact addition on the extended values: NaN propagates, opposite
infinities give NaN.  Finite results are kept exact — no float64 rounding
or overflow; where a claim's truth depends on overflow of finite doubles
the overflow-aware `addF64`/`subF64` defined below are used instead. -/
def add : FloatVal → FloatVal → FloatVal
  | fin a, fin b => fin (a + b)
  | nan, _ => nan
  | _, nan => nan
  | posInf, negInf => nan
  | negInf, posInf => nan
  | posInf, _ => posInf
  | _, posInf => posInf
  | negInf, _ => negInf
  | _, negInf => negInf

/-- Exact subtraction via `add`/`neg` (see the note on `add`). -/
def sub (x y : FloatVal) : FloatVal := add x (neg y)

/-- Embeds `Series.abs`. -/
def fabs : FloatVal → FloatVal
  | fin a => fin |a|
  | nan => nan
  | _ => posInf

/-- Python's built-in `max(a, b)`: returns `b` iff `b > a` (so a NaN second
argument is never chosen, while a NaN first argument is kept). -/
def pmax (a b : FloatVal) : FloatVal := if lt a b then b else a

/-- Python's built-in `min(a, b)`: returns `b` iff `b < a`. -/
def pmin (a b : FloatVal) : FloatVal := if lt b a then b else a

/-- Multiplication by a finite float (embedded as a rational). -/
def mulQ (q : ℚ) : FloatVal → FloatVal
  | fin a => fin (q * a)
  | nan => nan
  | posInf => if 0 < q then posInf else if q < 0 then negInf else nan
  | negInf => if 0 < q then negInf else if q < 0 then posInf else nan

/-- Division by a finite float (embedded as a rational). -/
def divQ : FloatVal → ℚ → FloatVal
  | fin a, q => if q = 0 then (if a = 0 then nan else if 0 < a then posInf else negInf) else fin (a / q)
  | nan, _ => nan
  | posInf, q => if q < 0 then negInf else posInf
  | negInf, q => if q < 0 then posInf else negInf

end FloatVal

open FloatVal

/-- Three-argument `zipWith`, truncating to the shortest input like pandas
elementwise operations on equal-length frames. -/
def zipWith3F (f : FloatVal → FloatVal → FloatVal → FloatVal) :
    List FloatVal → List FloatVal → List FloatVal → List FloatVal
  | a :: as, b :: bs, c :: cs => f a b c :: zipWith3F f as bs cs
  | _, _, _ => []

/-- Row maximum with `skipna=True` (pandas `DataFrame.max(axis=1)`):
a NaN operand is ignored rather than propagated. -/
def nanIgnoringMax (a b : FloatVal) : FloatVal :=
  if a.isNan then b else if b.isNan then a else if a.lt b then b else a

/-- Embeds `np.maximum`: a NaN operand propagates. -/
def npMax (a b : FloatVal) : FloatVal :=
  if a.isNan then FloatVal.nan else if b.isNan then FloatVal.nan
  else if a.lt b then b else a

/-- pandas `fillna(method="bfill")`: each NaN is replaced by the next
non-NaN value after it (trailing all-NaN runs are left as NaN). -/
def bfill : List FloatVal → List FloatVal
  | [] => []
  | x :: xs => (if x.isNan then (bfill xs).headD FloatVal.nan else x) :: bfill xs

/-- pandas `fillna(0.0)`. -/
def fillna0 (l : List FloatVal) : List FloatVal :=
  l.map fun x => if x.isNan then FloatVal.fin 0 else x

/-- First non-NaN element of a list, or the given default. -/
def firstNonNanD : List FloatVal → FloatVal → FloatVal
  | [], d => d
  | x :: xs, d => if x.isNan then firstNonNanD xs d else x

/-- Replace a non-finite value by 0 (the per-bar margin coercion of
`_ut_trailing_stop`). -/
def coerceFin (v : FloatVal) : FloatVal := if v.isFinite then v else FloatVal.fin 0

/-- pandas `Series.ewm(alpha, adjust=False, ignore_na=False).mean()`:
state is the current weighted average (NaN until the first observation)
and the accumulated old weight.  A NaN observation leaves the average
unchanged but decays the old weight; a non-NaN observation updates the
average by `(oldWt·avg + alpha·cur) / (oldWt + alpha)` unless it equals the
average (pandas skips the division in that case), then resets the weight. -/
def ewmMeanAux (alpha : ℚ) : FloatVal → ℚ → List FloatVal → List FloatVal
  | _, _, [] => []
  | wavg, oldWt, cur :: rest =>
    if wavg.isNan then
      if cur.isNan then
        FloatVal.nan :: ewmMeanAux alpha FloatVal.nan oldWt rest
      else
        cur :: ewmMeanAux alpha cur oldWt rest
    else
      if cur.isNan then
        wavg :: ewmMeanAux alpha wavg (oldWt * (1 - alpha)) rest
      else
        let ow := oldWt * (1 - alpha)
        let w := if wavg.beq cur then wavg
                 else divQ (add (mulQ ow wavg) (mulQ alpha cur)) (ow + alpha)
        w :: ewmMeanAux alpha w 1 rest

def ewmMean (alpha : ℚ) (l : List FloatVal) : List FloatVal :=
  ewmMeanAux alpha FloatVal.nan 1 l

/-- The sequential trailing-stop loop shared by both strategies: the output
at each position is `step prevStop prevSrc src nloss`, and becomes the next
`prevStop` while the current source becomes the next `prevSrc`. -/
def stopFold (step : FloatVal → FloatVal → FloatVal → FloatVal → FloatVal) :
    FloatVal → FloatVal → List (FloatVal × FloatVal) → List FloatVal
  | _, _, [] => []
  | p, q, (s, n) :: rest => step p q s n :: stopFold step (step p q s n) s rest

/-- Embeds `_crossover` / `_crossed_above`: `(a > b) & (a.shift(1) <= b.shift(1))`.
`shift(1)` is `nan :: a` (pandas puts NaN at position 0; the extra last
element is dropped by `zipWith` truncation).  The `.fillna(False)` present
in buy_sell_indicator_strategy.py is a no-op on a boolean series. -/
def crossedAbove (a b : List FloatVal) : List Bool :=
  List.zipWith and (List.zipWith (fun x y => FloatVal.lt y x) a b)
    (List.zipWith (fun x y => FloatVal.le x y) (FloatVal.nan :: a) (FloatVal.nan :: b))

/-- Embeds `_crossunder` / `_crossed_below`: `(a < b) & (a.shift(1) >= b.shift(1))`. -/
def crossedBelow (a b : List FloatVal) : List Bool :=
  List.zipWith and (List.zipWith (fun x y => FloatVal.lt x y) a b)
    (List.zipWith (fun x y => FloatVal.le y x) (FloatVal.nan :: a) (FloatVal.nan :: b))

/-- Embeds `BuySellIndicatorStrategy._ema`: period ≤ 1 returns the series
unchanged, otherwise a span-based EMA (`alpha = 2/(span+1)`). -/
def emaList (s : List FloatVal) (period : ℕ) : List FloatVal :=
  if period ≤ 1 then s else ewmMean (2 / ((period : ℚ) + 1)) s

/-- The four-branch transition rule exactly as the spec (§4.3) and claim C1
state it, on `p = stop[i-1]`, `s = source[i]`, `ps = source[i-1]`,
`m = noise_margin[i]`. -/
def specTransition (p s ps m : FloatVal) : FloatVal :=
  if p.lt s && p.lt ps then pmax p (sub s m)
  else if s.lt p && ps.lt p then pmin p (add s m)
  else if p.lt s then sub s m
  else add s m

namespace BuySell

/-- Loop body of `BuySellIndicatorStrategy._compute_trailing_stop`.  The
initialization condition `i == 0 or np.isnan(stop_values[i - 1])` is folded
into the NaN test by starting the fold with a NaN previous stop. -/
def step (prevStop prevSrc src nloss : FloatVal) : FloatVal :=
  if prevStop.isNan then add src nloss
  else if prevStop.lt src && prevStop.lt prevSrc then pmax prevStop (sub src nloss)
  else if src.lt prevStop && prevSrc.lt prevStop then pmin prevStop (add src nloss)
  else if prevStop.lt src then sub src nloss
  else add src nloss

/-- Embeds `BuySellIndicatorStrategy._compute_trailing_stop` (used with aligned
equal-length series; the initial previous source is irrelevant because the
first iteration always takes the initialization branch). -/
def computeTrailingStop (src nloss : List FloatVal) : List FloatVal :=
  stopFold step FloatVal.nan FloatVal.nan (src.zip nloss)

/-- Embeds `BuySellIndicatorStrategy._heikin_ashi_close`: `(o+h+l+c)/4`. -/
def heikinAshiClose (o h l c : List FloatVal) : List FloatVal :=
  (((o.zipWith add h).zipWith add l).zipWith add c).map fun x => divQ x 4

/-- True range inside `BuySellIndicatorStrategy._atr`: rowwise skipna
maximum of `high-low`, `|high-prev_close|`, `|low-prev_close|`, with
`prev_close = close.shift(1)`. -/
def trueRange (high low close : List FloatVal) : List FloatVal :=
  zipWith3F
    (fun hi lo pc =>
      nanIgnoringMax (nanIgnoringMax (sub hi lo) (fabs (sub hi pc))) (fabs (sub lo pc)))
    high low (FloatVal.nan :: close)

/-- The Wilder-smoothed ATR before the fill steps (`alpha = 1/period`,
with period clamped below by 1). -/
def atrRaw (high low close : List FloatVal) (period : ℕ) : List FloatVal :=
  ewmMean (1 / ((max period 1 : ℕ) : ℚ)) (trueRange high low close)

/-- Embeds `BuySellIndicatorStrategy._atr`: smoothed true range, back-filled, then
remaining NaN filled with 0. -/
def atr (high low close : List FloatVal) (period : ℕ) : List FloatVal :=
  fillna0 (bfill (atrRaw high low close period))

/-- Column `df["src"]` in `populate_indicators`. -/
def src (o h l c : List FloatVal) (useHA : Bool) : List FloatVal :=
  if useHA then heikinAshiClose o h l c else c

/-- Column `df["nloss"] = df["atr"] * key_value`. -/
def nloss (o h l c : List FloatVal) (period : ℕ) (keyValue : ℚ) : List FloatVal :=
  (atr h l c period).map (mulQ keyValue)

/-- Column `df["trailing_stop"]`. -/
def trailingStop (o h l c : List FloatVal) (period : ℕ) (kv : ℚ) (useHA : Bool) :
    List FloatVal :=
  computeTrailingStop (src o h l c useHA) (nloss o h l c period kv)

/-- Column `df["ema1"] = self._ema(df["src"], period=1)`. -/
def ema1 (o h l c : List FloatVal) (useHA : Bool) : List FloatVal :=
  emaList (src o h l c useHA) 1

/-- Column `df["above"]`. -/
def above (o h l c : List FloatVal) (period : ℕ) (kv : ℚ) (useHA : Bool) : List Bool :=
  crossedAbove (ema1 o h l c useHA) (trailingStop o h l c period kv useHA)

/-- Column `df["below"]`. -/
def below (o h l c : List FloatVal) (period : ℕ) (kv : ℚ) (useHA : Bool) : List Bool :=
  crossedBelow (ema1 o h l c useHA) (trailingStop o h l c period kv useHA)

/-- Column `df["barbuy"] = df["src"] > df["trailing_stop"]`. -/
def barbuy (o h l c : List FloatVal) (period : ℕ) (kv : ℚ) (useHA : Bool) : List Bool :=
  List.zipWith (fun x y => FloatVal.lt y x) (src o h l c useHA)
    (trailingStop o h l c period kv useHA)

/-- Column `df["barsell"] = df["src"] < df["trailing_stop"]`. -/
def barsell (o h l c : List FloatVal) (period : ℕ) (kv : ℚ) (useHA : Bool) : List Bool :=
  List.zipWith (fun x y => FloatVal.lt x y) (src o h l c useHA)
    (trailingStop o h l c period kv useHA)

/-- Column `df["buy_signal"] = df["barbuy"] & df["above"]`. -/
def buySignal (o h l c : List FloatVal) (period : ℕ) (kv : ℚ) (useHA : Bool) : List Bool :=
  List.zipWith and (barbuy o h l c period kv useHA) (above o h l c period kv useHA)

/-- Column `df["sell_signal"] = df["barsell"] & df["below"]`. -/
def sellSignal (o h l c : List FloatVal) (period : ℕ) (kv : ℚ) (useHA : Bool) : List Bool :=
  List.zipWith and (barsell o h l c period kv useHA) (below o h l c period kv useHA)

end BuySell

namespace UtBot

/-- Loop body of `UtBotStrategy._ut_trailing_stop`: a non-finite price
propagates the previous stop unchanged; a non-finite loss is treated as 0;
otherwise the four-branch rule runs. -/
def step (prevStop prevSrc price loss : FloatVal) : FloatVal :=
  if price.isFinite = false then prevStop
  else
    let l := if loss.isFinite then loss else FloatVal.fin 0
    if prevStop.lt price && prevStop.lt prevSrc then pmax prevStop (sub price l)
    else if price.lt prevStop && prevSrc.lt prevStop then pmin prevStop (add price l)
    else if prevStop.lt price then sub price l
    else add price l

/-- Embeds `UtBotStrategy._ut_trailing_stop`: `values = np.zeros(len(src))`, the
previous stop at i = 0 is the literal 0.0 and the previous source is
`src[0]`; the loop runs over `zip(src, nloss)` so with a shorter `nloss`
the trailing entries of the preallocated zero array are returned as is. -/
def utTrailingStop (src nloss : List FloatVal) : List FloatVal :=
  let comp := stopFold step (FloatVal.fin 0) (src.headD (FloatVal.fin 0)) (src.zip nloss)
  comp ++ List.replicate (src.length - comp.length) (FloatVal.fin 0)

/-- True range inside `UtBotStrategy._atr`: `np.maximum.reduce` of
`|high-low|`, `|high-prev_close|`, `|low-prev_close|` — NaN propagates. -/
def trueRange (high low close : List FloatVal) : List FloatVal :=
  zipWith3F
    (fun hi lo pc =>
      npMax (npMax (fabs (sub hi lo)) (fabs (sub hi pc))) (fabs (sub lo pc)))
    high low (FloatVal.nan :: close)

/-- Embeds `UtBotStrategy._atr`: Wilder smoothing of the true range, with no
fill of any kind. -/
def atr (high low close : List FloatVal) (period : ℕ) : List FloatVal :=
  ewmMean (1 / (period : ℚ)) (trueRange high low close)

/-- Modelled from the spec: `qtpylib.heikinashi` is vendor code of the host
framework, not part of this repository's sources; per spec §4.2 the
smoothed-average source is `(open+high+low+close)/4`. -/
def qtpylibHeikinashiClose (o h l c : List FloatVal) : List FloatVal :=
  (((o.zipWith add h).zipWith add l).zipWith add c).map fun x => divQ x 4

/-- The `source` series of `populate_indicators`. -/
def source (o h l c : List FloatVal) (useHA : Bool) : List FloatVal :=
  if useHA then qtpylibHeikinashiClose o h l c else c

/-- Column `nloss = self.key_value * atr`. -/
def nloss (h l c : List FloatVal) (period : ℕ) (keyValue : ℚ) : List FloatVal :=
  (atr h l c period).map (mulQ keyValue)

/-- Column `df["ut_trailing_stop"]`. -/
def stopCol (o h l c : List FloatVal) (period : ℕ) (kv : ℚ) (useHA : Bool) :
    List FloatVal :=
  utTrailingStop (source o h l c useHA) (nloss h l c period kv)

/-- Column `df["ut_crossover"]`. -/
def crossoverCol (o h l c : List FloatVal) (period : ℕ) (kv : ℚ) (useHA : Bool) : List Bool :=
  crossedAbove (source o h l c useHA) (stopCol o h l c period kv useHA)

/-- Column `df["ut_crossunder"]`. -/
def crossunderCol (o h l c : List FloatVal) (period : ℕ) (kv : ℚ) (useHA : Bool) : List Bool :=
  crossedBelow (source o h l c useHA) (stopCol o h l c period kv useHA)

/-- Column `df["ut_buy"] = (source > stop) & crossover`. -/
def buyCol (o h l c : List FloatVal) (period : ℕ) (kv : ℚ) (useHA : Bool) : List Bool :=
  List.zipWith and
    (List.zipWith (fun x y => FloatVal.lt y x) (source o h l c useHA)
      (stopCol o h l c period kv useHA))
    (crossoverCol o h l c period kv useHA)

/-- Column `df["ut_sell"] = (source < stop) & crossunder`. -/
def sellCol (o h l c : List FloatVal) (period : ℕ) (kv : ℚ) (useHA : Bool) : List Bool :=
  List.zipWith and
    (List.zipWith (fun x y => FloatVal.lt x y) (source o h l c useHA)
      (stopCol o h l c period kv useHA))
    (crossunderCol o h l c period kv useHA)

end UtBot

/-- Smallest magnitude at which an exact result certainly overflows a
float64 to the like-signed infinity: 2^1024, written as ((2^64)^16 to keep
kernel reduction shallow.  IEEE round-to-nearest already overflows from
2^1024 - 2^970 on, so clamping only at 2^1024 under-reports overflow:
every infinity `f64Clamp` produces is an infinity the program produces. -/
def f64Max : ℚ := ((2 : ℚ) ^ 64) ^ 16

/-- Clamp an exact finite result to model float64 overflow to ±inf. -/
def f64Clamp : FloatVal → FloatVal
  | FloatVal.fin q =>
    if q ≥ f64Max then FloatVal.posInf
    else if q ≤ -f64Max then FloatVal.negInf
    else FloatVal.fin q
  | x => x

/-- Addition of float64 values with overflow. -/
def addF64 (x y : FloatVal) : FloatVal := f64Clamp (add x y)

/-- Subtraction of float64 values with overflow. -/
def subF64 (x y : FloatVal) : FloatVal := f64Clamp (sub x y)

/-- Loop body of `UtBotStrategy._ut_trailing_stop` with the float64
overflow of `price - loss` / `price + loss` modelled (`FloatVal.add` and
`FloatVal.sub` elsewhere in this file are exact and overflow-free, which
is adequate for every claim except the finiteness claim C9, whose truth
hinges precisely on overflow). -/
def UtBot.stepF64 (prevStop prevSrc price loss : FloatVal) : FloatVal :=
  if price.isFinite = false then prevStop
  else
    let l := if loss.isFinite then loss else FloatVal.fin 0
    if prevStop.lt price && prevStop.lt prevSrc then pmax prevStop (subF64 price l)
    else if price.lt prevStop && prevSrc.lt prevStop then pmin prevStop (addF64 price l)
    else if prevStop.lt price then subF64 price l
    else addF64 price l

/-- Embeds `UtBotStrategy._ut_trailing_stop` over float64 arithmetic with
overflow (same structure as `UtBot.utTrailingStop`). -/
def UtBot.utTrailingStopF64 (src nloss : List FloatVal) : List FloatVal :=
  let comp := stopFold UtBot.stepF64 (FloatVal.fin 0) (src.headD (FloatVal.fin 0)) (src.zip nloss)
  comp ++ List.replicate (src.length - comp.length) (FloatVal.fin 0)

namespace FloatVal

theorem lt_asymm_bool (x y : FloatVal) : (lt x y && lt y x) = false := by
  cases x <;> cases y <;> simp only [lt, Bool.and_false, Bool.false_and, Bool.and_true,
    Bool.true_and, Bool.and_self] <;>
  · rename_i a b
    simp only [Bool.and_eq_false_iff, decide_eq_false_iff_not]
    rcases lt_or_le a b with h | h
    · exact Or.inr (asymm h)
    · exact Or.inl (not_lt.mpr h)

theorem isNan_false_left_of_lt {x y : FloatVal} (h : lt x y = true) : x.isNan = false := by
  cases x <;> cases y <;> simp_all [lt, isNan]

theorem isNan_false_right_of_lt {x y : FloatVal} (h : lt x y = true) : y.isNan = false := by
  cases x <;> cases y <;> simp_all [lt, isNan]

theorem le_of_lt_bool {x y : FloatVal} (h : lt x y = true) : le x y = true := by
  cases x <;> cases y <;> simp_all [lt, le] <;> exact le_of_lt h

theorem le_rfl_of_not_nan {x : FloatVal} (h : x.isNan = false) : le x x = true := by
  cases x <;> simp_all [le, isNan]

theorem le_pmax_left {x : FloatVal} (y : FloatVal) (h : x.isNan = false) :
    le x (pmax x y) = true := by
  unfold pmax
  by_cases hxy : lt x y = true
  · simp only [hxy, if_true]
    exact le_of_lt_bool hxy
  · simp only [Bool.not_eq_true] at hxy
    simp only [hxy, Bool.false_eq_true, if_false]
    exact le_rfl_of_not_nan h

theorem pmin_le_left {x : FloatVal} (y : FloatVal) (h : x.isNan = false) :
    le (pmin x y) x = true := by
  unfold pmin
  by_cases hyx : lt y x = true
  · simp only [hyx, if_true]
    exact le_of_lt_bool hyx
  · simp only [Bool.not_eq_true] at hyx
    simp only [hyx, Bool.false_eq_true, if_false]
    exact le_rfl_of_not_nan h

end FloatVal

/-- Elementwise access to a `zipWith`, inside the common range. -/
theorem getD_zipWith_in {α β γ : Type} (f : α → β → γ) :
    ∀ (a : List α) (b : List β) (i : ℕ) (d : γ) (da : α) (db : β),
      i < a.length → i < b.length →
      (List.zipWith f a b).getD i d = f (a.getD i da) (b.getD i db)
  | [], _, i, _, _, _, ha, _ => absurd ha (by simp)
  | _ :: _, [], i, _, _, _, _, hb => absurd hb (by simp)
  | x :: xs, y :: ys, 0, d, da, db, _, _ => rfl
  | x :: xs, y :: ys, i + 1, d, da, db, ha, hb => by
    simpa using getD_zipWith_in f xs ys i d da db (by simpa using ha) (by simpa using hb)

/-- Elementwise access to a `zip`, inside the common range. -/
theorem getD_zip_in :
    ∀ (a b : List FloatVal) (i : ℕ), i < a.length → i < b.length →
      (a.zip b).getD i (FloatVal.nan, FloatVal.nan) =
        (a.getD i FloatVal.nan, b.getD i FloatVal.nan) := by
  intro a b i ha hb
  rw [List.zip_eq_zipWith]
  exact getD_zipWith_in Prod.mk a b i _ _ _ ha hb

theorem stopFold_length (f : FloatVal → FloatVal → FloatVal → FloatVal → FloatVal) :
    ∀ (l : List (FloatVal × FloatVal)) (p q : FloatVal), (stopFold f p q l).length = l.length
  | [], _, _ => rfl
  | (s, n) :: rest, p, q => by
    simpa [stopFold] using stopFold_length f rest (f p q s n) s

theorem stopFold_getD_zero (f : FloatVal → FloatVal → FloatVal → FloatVal → FloatVal)
    (l : List (FloatVal × FloatVal)) (p q : FloatVal) (h : 0 < l.length) :
    (stopFold f p q l).getD 0 FloatVal.nan =
      f p q (l.getD 0 (FloatVal.nan, FloatVal.nan)).1 (l.getD 0 (FloatVal.nan, FloatVal.nan)).2 := by
  cases l with
  | nil => simp at h
  | cons pr rest => cases pr; rfl

/-- Consecutive-output relation of the trailing-stop fold: each output is
the step applied to the previous output, the previous source and the
current pair. -/
theorem stopFold_consec (f : FloatVal → FloatVal → FloatVal → FloatVal → FloatVal) :
    ∀ (l : List (FloatVal × FloatVal)) (p q : FloatVal) (i : ℕ), i + 1 < l.length →
      (stopFold f p q l).getD (i + 1) FloatVal.nan =
        f ((stopFold f p q l).getD i FloatVal.nan)
          (l.getD i (FloatVal.nan, FloatVal.nan)).1
          (l.getD (i + 1) (FloatVal.nan, FloatVal.nan)).1
          (l.getD (i + 1) (FloatVal.nan, FloatVal.nan)).2
  | [], _, _, i, h => absurd h (by simp)
  | (s₀, n₀) :: rest, p, q, 0, h => by
    match rest, h with
    | (s₁, n₁) :: r2, _ => rfl
  | (s₀, n₀) :: rest, p, q, i + 1, h => by
    simpa [stopFold] using
      stopFold_consec f rest (f p q s₀ n₀) s₀ i (by simpa using h)

/-- Mutual exclusion of two `cond & flag` style signal columns whose
leading conditions are pointwise contradictory. -/
theorem getD_signal_mutex (f g : FloatVal → FloatVal → Bool)
    (hfg : ∀ x y, (f x y && g x y) = false) :
    ∀ (a b : List FloatVal) (u v : List Bool) (i : ℕ),
      ((List.zipWith and (List.zipWith f a b) u).getD i false &&
       (List.zipWith and (List.zipWith g a b) v).getD i false) = false
  | [], _, _, _, _ => by simp
  | _ :: _, [], _, _, _ => by simp
  | _ :: _, _ :: _, [], _, _ => by simp
  | x :: xs, y :: ys, u₀ :: us, [], i => by simp
  | x :: xs, y :: ys, u₀ :: us, v₀ :: vs, 0 => by
    have h := hfg x y
    simp only [List.zipWith_cons_cons, List.getD_cons_zero]
    cases hf : f x y <;> cases hg : g x y <;> simp_all
  | x :: xs, y :: ys, u₀ :: us, v₀ :: vs, i + 1 => by
    simpa using getD_signal_mutex f g hfg xs ys us vs i

theorem BuySell.computeTrailingStop_length (src nloss : List FloatVal) :
    (BuySell.computeTrailingStop src nloss).length = min src.length nloss.length := by
  simp [BuySell.computeTrailingStop, stopFold_length]

theorem BuySell.computeTrailingStop_getD_zero (src nloss : List FloatVal)
    (hs : 0 < src.length) (hn : 0 < nloss.length) :
    (BuySell.computeTrailingStop src nloss).getD 0 FloatVal.nan =
      add (src.getD 0 FloatVal.nan) (nloss.getD 0 FloatVal.nan) := by
  unfold BuySell.computeTrailingStop
  rw [stopFold_getD_zero _ _ _ _ (by simp [hs, hn]), getD_zip_in src nloss 0 hs hn]
  rfl

theorem BuySell.computeTrailingStop_consec (src nloss : List FloatVal)
    (i : ℕ) (hs : i + 1 < src.length) (hn : i + 1 < nloss.length) :
    (BuySell.computeTrailingStop src nloss).getD (i + 1) FloatVal.nan =
      BuySell.step ((BuySell.computeTrailingStop src nloss).getD i FloatVal.nan)
        (src.getD i FloatVal.nan) (src.getD (i + 1) FloatVal.nan)
        (nloss.getD (i + 1) FloatVal.nan) := by
  unfold BuySell.computeTrailingStop
  rw [stopFold_consec _ _ _ _ _ (by simp [hs, hn]),
    getD_zip_in src nloss i (Nat.lt_of_succ_lt hs) (Nat.lt_of_succ_lt hn),
    getD_zip_in src nloss (i + 1) hs hn]

theorem UtBot.utTrailingStop_eq_fold (src nloss : List FloatVal)
    (hlen : src.length = nloss.length) :
    UtBot.utTrailingStop src nloss =
      stopFold UtBot.step (FloatVal.fin 0) (src.headD (FloatVal.fin 0)) (src.zip nloss) := by
  unfold UtBot.utTrailingStop
  simp [stopFold_length, hlen]

theorem UtBot.utTrailingStop_getD_zero (src nloss : List FloatVal)
    (hlen : src.length = nloss.length) (hs : 0 < src.length) :
    (UtBot.utTrailingStop src nloss).getD 0 FloatVal.nan =
      UtBot.step (FloatVal.fin 0) (src.getD 0 FloatVal.nan) (src.getD 0 FloatVal.nan)
        (nloss.getD 0 FloatVal.nan) := by
  rw [UtBot.utTrailingStop_eq_fold src nloss hlen,
    stopFold_getD_zero _ _ _ _ (by simp [hs, hlen ▸ hs]),
    getD_zip_in src nloss 0 hs (hlen ▸ hs)]
  cases src with
  | nil => simp at hs
  | cons x xs => rfl

theorem UtBot.utTrailingStop_consec (src nloss : List FloatVal)
    (hlen : src.length = nloss.length) (i : ℕ) (hs : i + 1 < src.length) :
    (UtBot.utTrailingStop src nloss).getD (i + 1) FloatVal.nan =
      UtBot.step ((UtBot.utTrailingStop src nloss).getD i FloatVal.nan)
        (src.getD i FloatVal.nan) (src.getD (i + 1) FloatVal.nan)
        (nloss.getD (i + 1) FloatVal.nan) := by
  rw [UtBot.utTrailingStop_eq_fold src nloss hlen,
    stopFold_consec _ _ _ _ _ (by simp [hs, hlen ▸ hs]),
    getD_zip_in src nloss i (Nat.lt_of_succ_lt hs) (Nat.lt_of_succ_lt (hlen ▸ hs)),
    getD_zip_in src nloss (i + 1) hs (hlen ▸ hs)]

/-- Absorption: `cond & (cond & flag) = cond & flag`, listwise. -/
theorem zipWith_and_absorb (f : FloatVal → FloatVal → Bool) :
    ∀ (a b : List FloatVal) (u : List Bool),
      List.zipWith and (List.zipWith f a b) (List.zipWith and (List.zipWith f a b) u) =
        List.zipWith and (List.zipWith f a b) u
  | [], _, _ => by simp
  | _ :: _, [], _ => by simp
  | x :: xs, y :: ys, [] => by simp
  | x :: xs, y :: ys, u₀ :: us => by
    simp only [List.zipWith_cons_cons]
    refine congrArg₂ _ ?_ (zipWith_and_absorb f xs ys us)
    cases f x y <;> cases u₀ <;> rfl

theorem FloatVal.lt_false_of_lt {x y : FloatVal} (h : FloatVal.lt x y = true) :
    FloatVal.lt y x = false := by
  have hxy := FloatVal.lt_asymm_bool x y
  rw [h, Bool.true_and] at hxy
  exact hxy

/-- Once the previous stop is a number, the buy_sell loop body is exactly
the spec's four-branch rule. -/
theorem bsStep_eq_specTransition (p q s m : FloatVal) (hp : p.isNan = false) :
    BuySell.step p q s m = specTransition p s q m := by
  simp only [BuySell.step, specTransition, hp, Bool.false_eq_true, if_false]

/-- On a finite price and a finite margin, the ut_bot loop body is exactly
the spec's four-branch rule. -/
theorem utStep_eq_specTransition (p q s m : FloatVal)
    (hs : s.isFinite = true) (hm : m.isFinite = true) :
    UtBot.step p q s m = specTransition p s q m := by
  simp only [UtBot.step, specTransition, hs, hm, Bool.true_eq_false, if_false, if_true]

theorem bsStep_ratchet_up {p q s : FloatVal} (m : FloatVal)
    (h1 : FloatVal.lt p s = true) (h2 : FloatVal.lt p q = true) :
    FloatVal.le p (BuySell.step p q s m) = true := by
  have hp := FloatVal.isNan_false_left_of_lt h1
  simp only [BuySell.step, hp, Bool.false_eq_true, if_false, h1, h2, Bool.and_self, if_true]
  exact FloatVal.le_pmax_left _ hp

theorem bsStep_ratchet_down {p q s : FloatVal} (m : FloatVal)
    (h1 : FloatVal.lt s p = true) (h2 : FloatVal.lt q p = true) :
    FloatVal.le (BuySell.step p q s m) p = true := by
  have hp := FloatVal.isNan_false_right_of_lt h1
  have h3 := FloatVal.lt_false_of_lt h1
  simp only [BuySell.step, hp, Bool.false_eq_true, if_false, h1, h2, h3,
    Bool.false_and, Bool.and_self, if_true]
  exact FloatVal.pmin_le_left _ hp

theorem utStep_ratchet_up {p q s : FloatVal} (m : FloatVal)
    (h1 : FloatVal.lt p s = true) (h2 : FloatVal.lt p q = true) :
    FloatVal.le p (UtBot.step p q s m) = true := by
  have hp := FloatVal.isNan_false_left_of_lt h1
  by_cases hf : s.isFinite = false
  · simp only [UtBot.step, hf, if_true]
    exact FloatVal.le_rfl_of_not_nan hp
  · simp only [Bool.not_eq_false] at hf
    simp only [UtBot.step, hf, Bool.true_eq_false, if_false, h1, h2, Bool.and_self, if_true]
    exact FloatVal.le_pmax_left _ hp

theorem utStep_ratchet_down {p q s : FloatVal} (m : FloatVal)
    (h1 : FloatVal.lt s p = true) (h2 : FloatVal.lt q p = true) :
    FloatVal.le (UtBot.step p q s m) p = true := by
  have hp := FloatVal.isNan_false_right_of_lt h1
  have h3 := FloatVal.lt_false_of_lt h1
  by_cases hf : s.isFinite = false
  · simp only [UtBot.step, hf, if_true]
    exact FloatVal.le_rfl_of_not_nan hp
  · simp only [Bool.not_eq_false] at hf
    simp only [UtBot.step, hf, Bool.true_eq_false, if_false, h1, h2, h3,
      Bool.false_and, Bool.and_self, if_true]
    exact FloatVal.pmin_le_left _ hp

/-- Claim C1: for every index i > 0 at which the previous stop is defined
(a number for the buy_sell engine; for the ut_bot engine the values are
always defined, so on finite price and margin — the non-finite cases are
governed by the guards of claim C4), both trailing-stop engines compute
stop[i] by the spec's four-branch rule on s = source[i], ps = source[i-1],
m = noise_margin[i], p = stop[i-1]. -/
theorem C1_four_branch_rule (src nloss : List FloatVal)
    (hlen : src.length = nloss.length) (i : ℕ) (hi : i + 1 < src.length) :
    (((BuySell.computeTrailingStop src nloss).getD i FloatVal.nan).isNan = false →
      (BuySell.computeTrailingStop src nloss).getD (i + 1) FloatVal.nan =
        specTransition ((BuySell.computeTrailingStop src nloss).getD i FloatVal.nan)
          (src.getD (i + 1) FloatVal.nan) (src.getD i FloatVal.nan)
          (nloss.getD (i + 1) FloatVal.nan))
  ∧ ((src.getD (i + 1) FloatVal.nan).isFinite = true →
      (nloss.getD (i + 1) FloatVal.nan).isFinite = true →
      (UtBot.utTrailingStop src nloss).getD (i + 1) FloatVal.nan =
        specTransition ((UtBot.utTrailingStop src nloss).getD i FloatVal.nan)
          (src.getD (i + 1) FloatVal.nan) (src.getD i FloatVal.nan)
          (nloss.getD (i + 1) FloatVal.nan)) := by
  constructor
  · intro hp
    rw [BuySell.computeTrailingStop_consec src nloss i hi (hlen ▸ hi)]
    exact bsStep_eq_specTransition _ _ _ _ hp
  · intro hs hm
    rw [UtBot.utTrailingStop_consec src nloss hlen i hi]
    exact utStep_eq_specTransition _ _ _ _ hs hm

/-- Witness for C1 at source [10, 12], margins [1, 1]. -/
theorem C1_witness :
    ((BuySell.computeTrailingStop [FloatVal.fin 10, FloatVal.fin 12]
        [FloatVal.fin 1, FloatVal.fin 1]).getD 1 FloatVal.nan =
      specTransition ((BuySell.computeTrailingStop [FloatVal.fin 10, FloatVal.fin 12]
          [FloatVal.fin 1, FloatVal.fin 1]).getD 0 FloatVal.nan)
        ([FloatVal.fin 10, FloatVal.fin 12].getD 1 FloatVal.nan)
        ([FloatVal.fin 10, FloatVal.fin 12].getD 0 FloatVal.nan)
        ([FloatVal.fin 1, FloatVal.fin 1].getD 1 FloatVal.nan))
  ∧ ((UtBot.utTrailingStop [FloatVal.fin 10, FloatVal.fin 12]
        [FloatVal.fin 1, FloatVal.fin 1]).getD 1 FloatVal.nan =
      specTransition ((UtBot.utTrailingStop [FloatVal.fin 10, FloatVal.fin 12]
          [FloatVal.fin 1, FloatVal.fin 1]).getD 0 FloatVal.nan)
        ([FloatVal.fin 10, FloatVal.fin 12].getD 1 FloatVal.nan)
        ([FloatVal.fin 10, FloatVal.fin 12].getD 0 FloatVal.nan)
        ([FloatVal.fin 1, FloatVal.fin 1].getD 1 FloatVal.nan)) := by
  have h := C1_four_branch_rule [FloatVal.fin 10, FloatVal.fin 12]
    [FloatVal.fin 1, FloatVal.fin 1] rfl 0 (by decide)
  exact ⟨h.1 (by decide), h.2 (by decide) (by decide)⟩

/-- Claim C2 (amended): the initialization rule
stop[i] = source[i] + noise_margin[i] at index 0 (and at indices whose
previous stop is NaN), including the single-candle case, holds for
`_compute_trailing_stop`; `_ut_trailing_stop` instead treats the previous
stop at index 0 as the number 0.0 and applies the transition rule. -/
theorem C2_initialization (src nloss : List FloatVal)
    (hlen : src.length = nloss.length) :
    (0 < src.length →
      (BuySell.computeTrailingStop src nloss).getD 0 FloatVal.nan =
        add (src.getD 0 FloatVal.nan) (nloss.getD 0 FloatVal.nan))
  ∧ (∀ i, i + 1 < src.length →
      ((BuySell.computeTrailingStop src nloss).getD i FloatVal.nan).isNan = true →
      (BuySell.computeTrailingStop src nloss).getD (i + 1) FloatVal.nan =
        add (src.getD (i + 1) FloatVal.nan) (nloss.getD (i + 1) FloatVal.nan))
  ∧ (∀ s n : FloatVal, BuySell.computeTrailingStop [s] [n] = [add s n])
  ∧ (0 < src.length →
      (UtBot.utTrailingStop src nloss).getD 0 FloatVal.nan =
        UtBot.step (FloatVal.fin 0) (src.getD 0 FloatVal.nan)
          (src.getD 0 FloatVal.nan) (nloss.getD 0 FloatVal.nan)) := by
  refine ⟨?_, ?_, ?_, ?_⟩
  · intro hs
    exact BuySell.computeTrailingStop_getD_zero src nloss hs (hlen ▸ hs)
  · intro i hi hnan
    rw [BuySell.computeTrailingStop_consec src nloss i hi (hlen ▸ hi)]
    simp only [BuySell.step, hnan, if_true]
  · intro s n
    rfl
  · intro hs
    exact UtBot.utTrailingStop_getD_zero src nloss hlen hs

/-- Witness for C2 at source [5], margin [2]. -/
theorem C2_witness :
    (BuySell.computeTrailingStop [FloatVal.fin 5] [FloatVal.fin 2]).getD 0 FloatVal.nan =
      add ([FloatVal.fin 5].getD 0 FloatVal.nan) ([FloatVal.fin 2].getD 0 FloatVal.nan) :=
  (C2_initialization [FloatVal.fin 5] [FloatVal.fin 2] rfl).1 (by decide)

/-- Counterexample for C2: on the single-candle series source [10],
margin [1], `_ut_trailing_stop` returns 9 (max(0, 10 - 1) from its 0.0
previous stop), not source + margin = 11. -/
theorem C2_counterexample :
    ¬ ((UtBot.utTrailingStop [FloatVal.fin 10] [FloatVal.fin 1]).getD 0 FloatVal.nan =
        add (FloatVal.fin 10) (FloatVal.fin 1)) := by decide

/-- Claim C3 (amended): on source [10,10,10] with margins [1,1,1],
`_compute_trailing_stop` produces [11,11,11] — after the bar-0
initialization to 11 the flat price has s = 10 < p = 11 (not the s == p
tie-break) and stays pinned via the downtrend branches; `_ut_trailing_stop`
produces [9,9,9] because of its 0.0 initial previous stop. -/
theorem C3_flat_scenario :
    BuySell.computeTrailingStop
        [FloatVal.fin 10, FloatVal.fin 10, FloatVal.fin 10]
        [FloatVal.fin 1, FloatVal.fin 1, FloatVal.fin 1] =
      [FloatVal.fin 11, FloatVal.fin 11, FloatVal.fin 11] := by decide

/-- Counterexample for C3: `_ut_trailing_stop` yields [9,9,9] on the same
input, not [11,11,11]. -/
theorem C3_counterexample :
    UtBot.utTrailingStop
        [FloatVal.fin 10, FloatVal.fin 10, FloatVal.fin 10]
        [FloatVal.fin 1, FloatVal.fin 1, FloatVal.fin 1] =
      [FloatVal.fin 9, FloatVal.fin 9, FloatVal.fin 9]
  ∧ ¬ (UtBot.utTrailingStop
        [FloatVal.fin 10, FloatVal.fin 10, FloatVal.fin 10]
        [FloatVal.fin 1, FloatVal.fin 1, FloatVal.fin 1] =
      [FloatVal.fin 11, FloatVal.fin 11, FloatVal.fin 11]) := by decide

/-- Claim C4 (amended): the non-finite guards exist only in
`_ut_trailing_stop`: there a non-finite source propagates the previous stop
unchanged and a non-finite noise margin is treated as 0 for that bar only
(the function is total, so no error is raised).  `_compute_trailing_stop`
has no such guard: a non-finite source flows through the branch arithmetic
(a NaN source makes stop[i] NaN rather than stop[i-1]). -/
theorem C4_nonfinite_guard (src nloss : List FloatVal) :
    (src.length = nloss.length → ∀ i, i + 1 < src.length →
      (src.getD (i + 1) FloatVal.nan).isFinite = false →
      (UtBot.utTrailingStop src nloss).getD (i + 1) FloatVal.nan =
        (UtBot.utTrailingStop src nloss).getD i FloatVal.nan)
  ∧ UtBot.utTrailingStop src (nloss.map coerceFin) = UtBot.utTrailingStop src nloss := by
  constructor
  · intro hlen i hi hs
    rw [UtBot.utTrailingStop_consec src nloss hlen i hi]
    simp only [UtBot.step, hs, if_true]
  · have hstep : ∀ (l : List (FloatVal × FloatVal)) (p q : FloatVal),
        stopFold UtBot.step p q (l.map (Prod.map id coerceFin)) = stopFold UtBot.step p q l := by
      intro l
      induction l with
      | nil => intro p q; rfl
      | cons pr rest ih =>
        intro p q
        obtain ⟨s, n⟩ := pr
        have key : (if (coerceFin n).isFinite = true then coerceFin n else FloatVal.fin 0) =
            (if n.isFinite = true then n else FloatVal.fin 0) := by
          by_cases hn : n.isFinite = true <;> simp [coerceFin, hn]
        have hsn : UtBot.step p q s (coerceFin n) = UtBot.step p q s n := by
          simp only [UtBot.step, key]
        simp only [List.map_cons, Prod.map, id, stopFold, hsn, ih]
    unfold UtBot.utTrailingStop
    rw [List.zip_map_right, hstep]

/-- Witness for C4: with source [10, +inf] and margins [1, 1] the ut_bot
stop carries the previous value 9 across the non-finite bar. -/
theorem C4_witness :
    (UtBot.utTrailingStop [FloatVal.fin 10, FloatVal.posInf]
        [FloatVal.fin 1, FloatVal.fin 1]).getD 1 FloatVal.nan =
      (UtBot.utTrailingStop [FloatVal.fin 10, FloatVal.posInf]
        [FloatVal.fin 1, FloatVal.fin 1]).getD 0 FloatVal.nan :=
  (C4_nonfinite_guard [FloatVal.fin 10, FloatVal.posInf]
    [FloatVal.fin 1, FloatVal.fin 1]).1 rfl 0 (by decide) (by decide)

/-- Counterexample for C4: in `_compute_trailing_stop`, a NaN source at
bar 1 gives stop[1] = NaN, which is not the previous stop 11. -/
theorem C4_counterexample :
    ¬ ((BuySell.computeTrailingStop [FloatVal.fin 10, FloatVal.nan]
          [FloatVal.fin 1, FloatVal.fin 1]).getD 1 FloatVal.nan =
        (BuySell.computeTrailingStop [FloatVal.fin 10, FloatVal.nan]
          [FloatVal.fin 1, FloatVal.fin 1]).getD 0 FloatVal.nan) := by decide

/-- Claim C7: the stop ratchets monotonically in the trend direction, in
both engines: if source[i] and source[i-1] both exceed stop[i-1] then
stop[i] >= stop[i-1]; if both are below stop[i-1] then stop[i] <= stop[i-1]. -/
theorem C7_monotonic_ratchet (src nloss : List FloatVal)
    (hlen : src.length = nloss.length) (i : ℕ) (hi : i + 1 < src.length) :
    ((FloatVal.lt ((BuySell.computeTrailingStop src nloss).getD i FloatVal.nan)
        (src.getD (i + 1) FloatVal.nan) = true →
      FloatVal.lt ((BuySell.computeTrailingStop src nloss).getD i FloatVal.nan)
        (src.getD i FloatVal.nan) = true →
      FloatVal.le ((BuySell.computeTrailingStop src nloss).getD i FloatVal.nan)
        ((BuySell.computeTrailingStop src nloss).getD (i + 1) FloatVal.nan) = true)
    ∧ (FloatVal.lt (src.getD (i + 1) FloatVal.nan)
        ((BuySell.computeTrailingStop src nloss).getD i FloatVal.nan) = true →
      FloatVal.lt (src.getD i FloatVal.nan)
        ((BuySell.computeTrailingStop src nloss).getD i FloatVal.nan) = true →
      FloatVal.le ((BuySell.computeTrailingStop src nloss).getD (i + 1) FloatVal.nan)
        ((BuySell.computeTrailingStop src nloss).getD i FloatVal.nan) = true))
  ∧ ((FloatVal.lt ((UtBot.utTrailingStop src nloss).getD i FloatVal.nan)
        (src.getD (i + 1) FloatVal.nan) = true →
      FloatVal.lt ((UtBot.utTrailingStop src nloss).getD i FloatVal.nan)
        (src.getD i FloatVal.nan) = true →
      FloatVal.le ((UtBot.utTrailingStop src nloss).getD i FloatVal.nan)
        ((UtBot.utTrailingStop src nloss).getD (i + 1) FloatVal.nan) = true)
    ∧ (FloatVal.lt (src.getD (i + 1) FloatVal.nan)
        ((UtBot.utTrailingStop src nloss).getD i FloatVal.nan) = true →
      FloatVal.lt (src.getD i FloatVal.nan)
        ((UtBot.utTrailingStop src nloss).getD i FloatVal.nan) = true →
      FloatVal.le ((UtBot.utTrailingStop src nloss).getD (i + 1) FloatVal.nan)
        ((UtBot.utTrailingStop src nloss).getD i FloatVal.nan) = true)) := by
  refine ⟨⟨?_, ?_⟩, ⟨?_, ?_⟩⟩
  · intro h1 h2
    rw [BuySell.computeTrailingStop_consec src nloss i hi (hlen ▸ hi)]
    exact bsStep_ratchet_up _ h1 h2
  · intro h1 h2
    rw [BuySell.computeTrailingStop_consec src nloss i hi (hlen ▸ hi)]
    exact bsStep_ratchet_down _ h1 h2
  · intro h1 h2
    rw [UtBot.utTrailingStop_consec src nloss hlen i hi]
    exact utStep_ratchet_up _ h1 h2
  · intro h1 h2
    rw [UtBot.utTrailingStop_consec src nloss hlen i hi]
    exact utStep_ratchet_down _ h1 h2

/-- Witness for C7 at source [10, 12, 14], margins [1, 1, 1] (bar 2 is a
confirmed uptrend over stop[1] = 11 in the buy_sell engine and over
stop[1] = 11 in the ut_bot engine). -/
theorem C7_witness :
    FloatVal.le ((BuySell.computeTrailingStop
        [FloatVal.fin 10, FloatVal.fin 12, FloatVal.fin 14]
        [FloatVal.fin 1, FloatVal.fin 1, FloatVal.fin 1]).getD 1 FloatVal.nan)
      ((BuySell.computeTrailingStop
        [FloatVal.fin 10, FloatVal.fin 12, FloatVal.fin 14]
        [FloatVal.fin 1, FloatVal.fin 1, FloatVal.fin 1]).getD 2 FloatVal.nan) = true
  ∧ FloatVal.le ((UtBot.utTrailingStop
        [FloatVal.fin 10, FloatVal.fin 12, FloatVal.fin 14]
        [FloatVal.fin 1, FloatVal.fin 1, FloatVal.fin 1]).getD 1 FloatVal.nan)
      ((UtBot.utTrailingStop
        [FloatVal.fin 10, FloatVal.fin 12, FloatVal.fin 14]
        [FloatVal.fin 1, FloatVal.fin 1, FloatVal.fin 1]).getD 2 FloatVal.nan) = true := by
  have h := C7_monotonic_ratchet
    [FloatVal.fin 10, FloatVal.fin 12, FloatVal.fin 14]
    [FloatVal.fin 1, FloatVal.fin 1, FloatVal.fin 1] rfl 1 (by decide)
  exact ⟨h.1.1 (by decide) (by decide), h.2.1 (by decide) (by decide)⟩

theorem FloatVal.isFinite_add {x y : FloatVal} (hx : x.isFinite = true)
    (hy : y.isFinite = true) : (add x y).isFinite = true := by
  cases x <;> cases y <;> simp_all [add, isFinite]

theorem FloatVal.isFinite_neg {x : FloatVal} (hx : x.isFinite = true) :
    x.neg.isFinite = true := by
  cases x <;> simp_all [neg, isFinite]

theorem FloatVal.isFinite_sub {x y : FloatVal} (hx : x.isFinite = true)
    (hy : y.isFinite = true) : (sub x y).isFinite = true :=
  isFinite_add hx (isFinite_neg hy)

theorem FloatVal.isFinite_pmax {x y : FloatVal} (hx : x.isFinite = true)
    (hy : y.isFinite = true) : (pmax x y).isFinite = true := by
  unfold pmax
  split <;> assumption

theorem FloatVal.isFinite_pmin {x y : FloatVal} (hx : x.isFinite = true)
    (hy : y.isFinite = true) : (pmin x y).isFinite = true := by
  unfold pmin
  split <;> assumption

/-- The ut_bot loop body keeps the stop finite. -/
theorem UtBot.step_finite (p q s n : FloatVal) (hp : p.isFinite = true) :
    (UtBot.step p q s n).isFinite = true := by
  by_cases hs : s.isFinite = false
  · simpa [UtBot.step, hs] using hp
  · simp only [Bool.not_eq_false] at hs
    have hl : (if n.isFinite = true then n else FloatVal.fin 0).isFinite = true := by
      by_cases hn : n.isFinite = true
      · rw [if_pos hn]
        exact hn
      · rw [if_neg hn]
        rfl
    simp only [UtBot.step, hs, Bool.true_eq_false, if_false]
    split
    · exact FloatVal.isFinite_pmax hp (FloatVal.isFinite_sub hs hl)
    split
    · exact FloatVal.isFinite_pmin hp (FloatVal.isFinite_add hs hl)
    split
    · exact FloatVal.isFinite_sub hs hl
    · exact FloatVal.isFinite_add hs hl

theorem UtBot.stopFold_all_finite :
    ∀ (l : List (FloatVal × FloatVal)) (p q : FloatVal), p.isFinite = true →
      (stopFold UtBot.step p q l).all FloatVal.isFinite = true
  | [], _, _, _ => rfl
  | (s, n) :: rest, p, q, hp => by
    simp only [stopFold, List.all_cons, Bool.and_eq_true]
    exact ⟨UtBot.step_finite p q s n hp,
      UtBot.stopFold_all_finite rest (UtBot.step p q s n) s (UtBot.step_finite p q s n hp)⟩

/-- Claim C9 (amended): absent float64 overflow — that is, in exact
arithmetic on the same values — every element of the series returned by
`_ut_trailing_stop` is a finite number, for every input series of any
lengths, NaN or infinite prices and margins included: the accumulator
starts from the finite 0.0, non-finite prices propagate the previous
finite stop, non-finite margins are coerced to 0, and every branch result
is a max/min/sum of finite operands.  On float64 itself the claim fails:
finite operands can overflow `price - loss` / `price + loss` to ±inf, see
the counterexample. -/
theorem C9_stop_always_finite (src nloss : List FloatVal) :
    (UtBot.utTrailingStop src nloss).all FloatVal.isFinite = true := by
  unfold UtBot.utTrailingStop
  rw [List.all_append, Bool.and_eq_true]
  refine ⟨UtBot.stopFold_all_finite _ _ _ rfl, ?_⟩
  rw [List.all_eq_true]
  intro x hx
  rw [List.eq_of_mem_replicate hx]
  rfl

/-- Counterexample for C9: src = [2^1023] and nloss = [-2^1023] are both
finite doubles (2^1023 is exactly representable and below the float64
maximum of about 1.798e308), so both isfinite guards pass, and the
uptrend branch computes max(0.0, 2^1023 - (-2^1023)) = 2^1024, which
overflows float64 to +inf: the returned series is [+inf], so not every
element is finite. -/
theorem C9_counterexample :
    (FloatVal.fin (((2 : ℚ) ^ 64) ^ 15 * 2 ^ 63)).isFinite = true
  ∧ (FloatVal.fin (-(((2 : ℚ) ^ 64) ^ 15 * 2 ^ 63))).isFinite = true
  ∧ UtBot.utTrailingStopF64 [FloatVal.fin (((2 : ℚ) ^ 64) ^ 15 * 2 ^ 63)]
      [FloatVal.fin (-(((2 : ℚ) ^ 64) ^ 15 * 2 ^ 63))] = [FloatVal.posInf]
  ∧ ¬ ((UtBot.utTrailingStopF64 [FloatVal.fin (((2 : ℚ) ^ 64) ^ 15 * 2 ^ 63)]
      [FloatVal.fin (-(((2 : ℚ) ^ 64) ^ 15 * 2 ^ 63))]).all FloatVal.isFinite = true) := by
  set_option maxRecDepth 4000 in decide

/-- Equation kept next to the counterexample so the nested powers read as
the intended float64 quantities: the input magnitude is 2^1023 and the
overflow threshold `f64Max` is 2^1024. -/
theorem f64_constants_spelled_out :
    ((2 : ℚ) ^ 64) ^ 15 * 2 ^ 63 = 2 ^ 1023 ∧ f64Max = 2 ^ 1024 := by
  constructor <;> norm_num [f64Max]

theorem FloatVal.lt_nan_right (x : FloatVal) : FloatVal.lt x FloatVal.nan = false := by
  cases x <;> rfl

theorem FloatVal.lt_nan_left (y : FloatVal) : FloatVal.lt FloatVal.nan y = false := rfl

theorem FloatVal.le_nan_right (x : FloatVal) : FloatVal.le x FloatVal.nan = false := by
  cases x <;> rfl

theorem FloatVal.le_nan_left (y : FloatVal) : FloatVal.le FloatVal.nan y = false := rfl

theorem FloatVal.eq_nan_of_isNan {v : FloatVal} (h : v.isNan = true) : v = FloatVal.nan := by
  cases v <;> simp_all [FloatVal.isNan]

/-- Index characterization of `crossedAbove` and `crossedBelow` past
index 0: current strict comparison AND previous non-strict comparison. -/
theorem crossed_getD_succ (a b : List FloatVal) (i : ℕ)
    (ha : i + 1 < a.length) (hb : i + 1 < b.length) :
    (crossedAbove a b).getD (i + 1) false =
      (FloatVal.lt (b.getD (i + 1) FloatVal.nan) (a.getD (i + 1) FloatVal.nan) &&
       FloatVal.le (a.getD i FloatVal.nan) (b.getD i FloatVal.nan))
  ∧ (crossedBelow a b).getD (i + 1) false =
      (FloatVal.lt (a.getD (i + 1) FloatVal.nan) (b.getD (i + 1) FloatVal.nan) &&
       FloatVal.le (b.getD i FloatVal.nan) (a.getD i FloatVal.nan)) := by
  have h1 : i + 1 < (List.zipWith (fun x y => FloatVal.lt y x) a b).length := by
    rw [List.length_zipWith]
    omega
  have h1' : i + 1 < (List.zipWith (fun x y => FloatVal.lt x y) a b).length := by
    rw [List.length_zipWith]
    omega
  have h2 : i + 1 <
      (List.zipWith (fun x y => FloatVal.le x y) (FloatVal.nan :: a) (FloatVal.nan :: b)).length := by
    rw [List.length_zipWith]
    simp only [List.length_cons]
    omega
  have h2' : i + 1 <
      (List.zipWith (fun x y => FloatVal.le y x) (FloatVal.nan :: a) (FloatVal.nan :: b)).length := by
    rw [List.length_zipWith]
    simp only [List.length_cons]
    omega
  constructor
  · rw [crossedAbove,
      getD_zipWith_in and _ _ (i + 1) false false false h1 h2,
      getD_zipWith_in _ a b (i + 1) false FloatVal.nan FloatVal.nan ha hb,
      getD_zipWith_in _ (FloatVal.nan :: a) (FloatVal.nan :: b) (i + 1) false
        FloatVal.nan FloatVal.nan (by simpa using Nat.lt_succ_of_lt ha)
        (by simpa using Nat.lt_succ_of_lt hb)]
    simp [List.getD_cons_succ]
  · rw [crossedBelow,
      getD_zipWith_in and _ _ (i + 1) false false false h1' h2',
      getD_zipWith_in _ a b (i + 1) false FloatVal.nan FloatVal.nan ha hb,
      getD_zipWith_in _ (FloatVal.nan :: a) (FloatVal.nan :: b) (i + 1) false
        FloatVal.nan FloatVal.nan (by simpa using Nat.lt_succ_of_lt ha)
        (by simpa using Nat.lt_succ_of_lt hb)]
    simp [List.getD_cons_succ]

/-- Claim C6: the crossover detector computes
crossed_above[i] = (A[i] > B[i] and A[i-1] <= B[i-1]) and
crossed_below[i] = (A[i] < B[i] and A[i-1] >= B[i-1]); index 0 is always
false for both, and a NaN operand anywhere in the comparisons makes the
flag false rather than raising. -/
theorem C6_crossover_detector (a b : List FloatVal) (i : ℕ) :
    ((crossedAbove a b).getD 0 false = false ∧ (crossedBelow a b).getD 0 false = false)
  ∧ (i + 1 < a.length → i + 1 < b.length →
      (crossedAbove a b).getD (i + 1) false =
        (FloatVal.lt (b.getD (i + 1) FloatVal.nan) (a.getD (i + 1) FloatVal.nan) &&
         FloatVal.le (a.getD i FloatVal.nan) (b.getD i FloatVal.nan))
      ∧ (crossedBelow a b).getD (i + 1) false =
        (FloatVal.lt (a.getD (i + 1) FloatVal.nan) (b.getD (i + 1) FloatVal.nan) &&
         FloatVal.le (b.getD i FloatVal.nan) (a.getD i FloatVal.nan)))
  ∧ (i + 1 < a.length → i + 1 < b.length →
      ((a.getD (i + 1) FloatVal.nan).isNan = true ∨
       (b.getD (i + 1) FloatVal.nan).isNan = true ∨
       (a.getD i FloatVal.nan).isNan = true ∨
       (b.getD i FloatVal.nan).isNan = true) →
      (crossedAbove a b).getD (i + 1) false = false ∧
      (crossedBelow a b).getD (i + 1) false = false) := by
  refine ⟨?_, fun ha hb => crossed_getD_succ a b i ha hb, ?_⟩
  · cases a with
    | nil => exact ⟨rfl, rfl⟩
    | cons x xs =>
      cases b with
      | nil => exact ⟨rfl, rfl⟩
      | cons y ys =>
        constructor
        · show (FloatVal.lt y x && FloatVal.le FloatVal.nan FloatVal.nan) = false
          simp [FloatVal.le_nan_left]
        · show (FloatVal.lt x y && FloatVal.le FloatVal.nan FloatVal.nan) = false
          simp [FloatVal.le_nan_left]
  · intro ha hb hdisj
    obtain ⟨e1, e2⟩ := crossed_getD_succ a b i ha hb
    rw [e1, e2]
    rcases hdisj with h | h | h | h <;> rw [FloatVal.eq_nan_of_isNan h] <;>
      simp [FloatVal.lt_nan_left, FloatVal.lt_nan_right,
        FloatVal.le_nan_left, FloatVal.le_nan_right]

/-- Witness for C6 at A = [1, 3], B = [2, 2], i = 0: the cross above at
bar 1 is detected. -/
theorem C6_witness :
    (crossedAbove [FloatVal.fin 1, FloatVal.fin 3] [FloatVal.fin 2, FloatVal.fin 2]).getD 1 false =
      (FloatVal.lt ([FloatVal.fin 2, FloatVal.fin 2].getD 1 FloatVal.nan)
          ([FloatVal.fin 1, FloatVal.fin 3].getD 1 FloatVal.nan) &&
       FloatVal.le ([FloatVal.fin 1, FloatVal.fin 3].getD 0 FloatVal.nan)
          ([FloatVal.fin 2, FloatVal.fin 2].getD 0 FloatVal.nan)) :=
  ((C6_crossover_detector [FloatVal.fin 1, FloatVal.fin 3]
    [FloatVal.fin 2, FloatVal.fin 2] 0).2.1 (by decide) (by decide)).1

/-- Claim C8: in both strategies' populate_indicators output, buy[i] and
sell[i] are never both true, and crossed_above[i]/crossed_below[i]
(above/below) are never both true, for every input series, parameters and
index. -/
theorem C8_mutual_exclusion (o h l c : List FloatVal) (period : ℕ) (kv : ℚ)
    (useHA : Bool) (i : ℕ) :
    ((BuySell.buySignal o h l c period kv useHA).getD i false &&
     (BuySell.sellSignal o h l c period kv useHA).getD i false) = false
  ∧ ((BuySell.above o h l c period kv useHA).getD i false &&
     (BuySell.below o h l c period kv useHA).getD i false) = false
  ∧ ((UtBot.buyCol o h l c period kv useHA).getD i false &&
     (UtBot.sellCol o h l c period kv useHA).getD i false) = false
  ∧ ((UtBot.crossoverCol o h l c period kv useHA).getD i false &&
     (UtBot.crossunderCol o h l c period kv useHA).getD i false) = false := by
  have hfg : ∀ x y : FloatVal, (FloatVal.lt y x && FloatVal.lt x y) = false :=
    fun x y => FloatVal.lt_asymm_bool y x
  refine ⟨?_, ?_, ?_, ?_⟩
  · exact getD_signal_mutex _ _ hfg _ _ _ _ i
  · exact getD_signal_mutex _ _ hfg _ _ _ _ i
  · exact getD_signal_mutex _ _ hfg _ _ _ _ i
  · exact getD_signal_mutex _ _ hfg _ _ _ _ i

/-- Claim C10: in buy_sell_indicator_strategy.py the barbuy/barsell
conjuncts are redundant: buy_signal equals above and sell_signal equals
below for every input, because `_ema` with period 1 returns the source
series unchanged and the crossover's current-bar comparison already is the
barbuy/barsell inequality. -/
theorem C10_redundant_conjuncts (o h l c : List FloatVal) (period : ℕ) (kv : ℚ)
    (useHA : Bool) :
    BuySell.buySignal o h l c period kv useHA = BuySell.above o h l c period kv useHA
  ∧ BuySell.sellSignal o h l c period kv useHA = BuySell.below o h l c period kv useHA
  ∧ (∀ s : List FloatVal, emaList s 1 = s) := by
  refine ⟨?_, ?_, fun s => rfl⟩
  · show List.zipWith and _ _ = _
    unfold BuySell.barbuy BuySell.above BuySell.ema1
    show List.zipWith and _ (crossedAbove (emaList _ 1) _) = _
    rw [show ∀ s : List FloatVal, emaList s 1 = s from fun s => rfl]
    unfold crossedAbove
    exact zipWith_and_absorb _ _ _ _
  · show List.zipWith and _ _ = _
    unfold BuySell.barsell BuySell.below BuySell.ema1
    show List.zipWith and _ (crossedBelow (emaList _ 1) _) = _
    rw [show ∀ s : List FloatVal, emaList s 1 = s from fun s => rfl]
    unfold crossedBelow
    exact zipWith_and_absorb _ _ _ _

theorem FloatVal.sub_nan (x : FloatVal) : sub x FloatVal.nan = FloatVal.nan := by
  cases x <;> rfl

theorem nanIgnoringMax_nan_right (a : FloatVal) : nanIgnoringMax a FloatVal.nan = a := by
  cases a <;> rfl

theorem nanIgnoringMax_eq_pmax {a b : FloatVal} (ha : a.isNan = false)
    (hb : b.isNan = false) : nanIgnoringMax a b = pmax a b := by
  simp [nanIgnoringMax, pmax, ha, hb]

theorem pmax_isNan_false {a b : FloatVal} (ha : a.isNan = false)
    (hb : b.isNan = false) : (pmax a b).isNan = false := by
  unfold pmax
  split <;> assumption

/-- Elementwise access to `zipWith3F`, inside the common range. -/
theorem getD_zipWith3F (f : FloatVal → FloatVal → FloatVal → FloatVal) :
    ∀ (a b c : List FloatVal) (i : ℕ), i < a.length → i < b.length → i < c.length →
      (zipWith3F f a b c).getD i FloatVal.nan =
        f (a.getD i FloatVal.nan) (b.getD i FloatVal.nan) (c.getD i FloatVal.nan)
  | [], _, _, i, ha, _, _ => absurd ha (by simp)
  | _ :: _, [], _, i, _, hb, _ => absurd hb (by simp)
  | _ :: _, _ :: _, [], i, _, _, hc => absurd hc (by simp)
  | x :: xs, y :: ys, z :: zs, 0, _, _, _ => rfl
  | x :: xs, y :: ys, z :: zs, i + 1, ha, hb, hc => by
    show (f x y z :: zipWith3F f xs ys zs).getD (i + 1) FloatVal.nan = _
    rw [List.getD_cons_succ]
    simpa using getD_zipWith3F f xs ys zs i (by simpa using ha) (by simpa using hb)
      (by simpa using hc)

theorem bfill_headD : ∀ l : List FloatVal,
    (bfill l).headD FloatVal.nan = firstNonNanD l FloatVal.nan
  | [] => rfl
  | x :: xs => by
    by_cases hx : x.isNan = true
    · show ((if x.isNan then (bfill xs).headD FloatVal.nan else x) :: bfill xs).headD
          FloatVal.nan = _
      rw [List.headD_cons, if_pos hx, firstNonNanD, if_pos hx]
      exact bfill_headD xs
    · show ((if x.isNan then (bfill xs).headD FloatVal.nan else x) :: bfill xs).headD
          FloatVal.nan = _
      rw [List.headD_cons, if_neg hx, firstNonNanD, if_neg hx]

theorem firstNonNanD_zero : ∀ l : List FloatVal,
    firstNonNanD l (FloatVal.fin 0) =
      if (firstNonNanD l FloatVal.nan).isNan = true then FloatVal.fin 0
      else firstNonNanD l FloatVal.nan
  | [] => rfl
  | x :: xs => by
    by_cases hx : x.isNan = true <;>
      simp [firstNonNanD, hx, firstNonNanD_zero xs]

/-- The back-fill / zero-fill pair: while the raw series is still NaN up to
position i, the filled series shows the first non-NaN value of the raw
series, or 0 when there is none. -/
theorem fill_getD : ∀ (L : List FloatVal) (i : ℕ), i < L.length →
    (∀ k, k ≤ i → (L.getD k FloatVal.nan).isNan = true) →
    (fillna0 (bfill L)).getD i FloatVal.nan = firstNonNanD L (FloatVal.fin 0)
  | [], i, h, _ => absurd h (by simp)
  | x :: xs, 0, _, hall => by
    have hx : x.isNan = true := by simpa using hall 0 (le_refl 0)
    simp only [bfill, hx, if_true, fillna0, List.map_cons, List.getD_cons_zero]
    rw [bfill_headD xs, firstNonNanD, if_pos hx, firstNonNanD_zero xs]
  | x :: xs, i + 1, h, hall => by
    have hx : x.isNan = true := by simpa using hall 0 (Nat.zero_le _)
    have e : (fillna0 (bfill (x :: xs))).getD (i + 1) FloatVal.nan =
        (fillna0 (bfill xs)).getD i FloatVal.nan := by
      simp [bfill, fillna0]
    rw [e, fill_getD xs i (by simpa using h)
      (fun k hk => by simpa using hall (k + 1) (Nat.succ_le_succ hk))]
    simp [firstNonNanD, hx]

/-- Claim C5 (amended): in `BuySellIndicatorStrategy._atr` the true range
at index 0, where prev_close is undefined, falls back to high - low (the
skipna row-max drops the two NaN gap terms); for i > 0 it is the max of
the three terms when all are defined; and while the smoothed series is
still NaN, the output is back-filled with its first defined value, or 0
when none exists.  (`UtBotStrategy._atr` does none of this, see the
counterexample.) -/
theorem C5_true_range_and_fill (h l c : List FloatVal) (period : ℕ) (i : ℕ) :
    (0 < h.length → 0 < l.length →
      (BuySell.trueRange h l c).getD 0 FloatVal.nan =
        sub (h.getD 0 FloatVal.nan) (l.getD 0 FloatVal.nan))
  ∧ (i + 1 < h.length → i + 1 < l.length → i < c.length →
      (sub (h.getD (i + 1) FloatVal.nan) (l.getD (i + 1) FloatVal.nan)).isNan = false →
      (fabs (sub (h.getD (i + 1) FloatVal.nan) (c.getD i FloatVal.nan))).isNan = false →
      (fabs (sub (l.getD (i + 1) FloatVal.nan) (c.getD i FloatVal.nan))).isNan = false →
      (BuySell.trueRange h l c).getD (i + 1) FloatVal.nan =
        pmax (pmax (sub (h.getD (i + 1) FloatVal.nan) (l.getD (i + 1) FloatVal.nan))
            (fabs (sub (h.getD (i + 1) FloatVal.nan) (c.getD i FloatVal.nan))))
          (fabs (sub (l.getD (i + 1) FloatVal.nan) (c.getD i FloatVal.nan))))
  ∧ (i < (BuySell.atrRaw h l c period).length →
      (∀ k, k ≤ i → ((BuySell.atrRaw h l c period).getD k FloatVal.nan).isNan = true) →
      (BuySell.atr h l c period).getD i FloatVal.nan =
        firstNonNanD (BuySell.atrRaw h l c period) (FloatVal.fin 0)) := by
  refine ⟨?_, ?_, ?_⟩
  · intro hh hl
    unfold BuySell.trueRange
    rw [getD_zipWith3F _ h l (FloatVal.nan :: c) 0 hh hl (by simp)]
    simp only [List.getD_cons_zero, FloatVal.sub_nan]
    show nanIgnoringMax (nanIgnoringMax _ (fabs FloatVal.nan)) (fabs FloatVal.nan) = _
    show nanIgnoringMax (nanIgnoringMax _ FloatVal.nan) FloatVal.nan = _
    rw [nanIgnoringMax_nan_right, nanIgnoringMax_nan_right]
  · intro hh hl hc h1 h2 h3
    unfold BuySell.trueRange
    rw [getD_zipWith3F _ h l (FloatVal.nan :: c) (i + 1) hh hl (by simpa using hc)]
    simp only [List.getD_cons_succ]
    rw [nanIgnoringMax_eq_pmax h1 h2, nanIgnoringMax_eq_pmax (pmax_isNan_false h1 h2) h3]
  · intro hlen hall
    exact fill_getD (BuySell.atrRaw h l c period) i hlen hall

/-- Witness for C5 on the one-candle frame high [5], low [3], close [4]:
true range at bar 0 is 5 - 3. -/
theorem C5_witness :
    (BuySell.trueRange [FloatVal.fin 5] [FloatVal.fin 3] [FloatVal.fin 4]).getD 0 FloatVal.nan =
      sub ([FloatVal.fin 5].getD 0 FloatVal.nan) ([FloatVal.fin 3].getD 0 FloatVal.nan) :=
  (C5_true_range_and_fill [FloatVal.fin 5] [FloatVal.fin 3] [FloatVal.fin 4] 1 0).1
    (by decide) (by decide)

/-- Counterexample for C5: in `UtBotStrategy._atr` the true range at index
0 is NaN (np.maximum propagates the NaN gap terms), not high - low, and
the NaN survives into the returned ATR with no back-fill even though a
defined value follows. -/
theorem C5_counterexample :
    (UtBot.trueRange [FloatVal.fin 2] [FloatVal.fin 1] [FloatVal.fin 5]).getD 0 FloatVal.nan =
      FloatVal.nan
  ∧ ¬ ((UtBot.trueRange [FloatVal.fin 2] [FloatVal.fin 1] [FloatVal.fin 5]).getD 0 FloatVal.nan =
        sub (FloatVal.fin 2) (FloatVal.fin 1))
  ∧ ((UtBot.atr [FloatVal.fin 2, FloatVal.fin 3] [FloatVal.fin 1, FloatVal.fin 1]
        [FloatVal.fin 1, FloatVal.fin 2] 10).getD 0 FloatVal.nan).isNan = true
  ∧ ((UtBot.atr [FloatVal.fin 2, FloatVal.fin 3] [FloatVal.fin 1, FloatVal.fin 1]
        [FloatVal.fin 1, FloatVal.fin 2] 10).getD 1 FloatVal.nan).isNan = false := by decide
